import Mathlib

/-!
Verification development for the DeFi open-interest monitor.

The repository collects open-interest (OI) readings for BTC and ETH from two
venues (Lighter and Hyperliquid), persists them as CSV rows, and derives a
cross-venue ratio with a least-squares linear trend and fixed-horizon
projections.  This file gives a shallow embedding of the relevant source
functions (main.py, api_version/main.py, app.py, streamlit_app.py) over exact
rationals, and proves the behavioural properties of the collection adapters,
the cycle batching, the forward-fill/ratio engine, the ordinary least-squares
trend fit and the projection display.
-/

namespace OIMonitor

/-! ## Model of Python numeric string parsing

Python `float(s)` on the decimal and scientific literals the scraper can
encounter: optional sign, digits, optional fractional part, optional exponent.
Special values (inf, nan) and underscore digit separators are not modelled;
the adapters only feed currency-formatted decimal text to `float`.
-/

/-- Numeric value of a digit string read left to right. -/
def digitsToNat (cs : List Char) : Nat :=
  cs.foldl (fun a c => 10 * a + (c.toNat - 48)) 0

/-- Parse the mantissa part: digits with an optional decimal point
(at least one digit overall, nothing else). -/
def parseMantissa (cs : List Char) : Option ℚ :=
  let ip := cs.takeWhile Char.isDigit
  let rest := cs.drop ip.length
  match rest with
  | [] => if ip.isEmpty then none else some ((digitsToNat ip : ℚ))
  | '.' :: fp =>
    if fp.all Char.isDigit && !(ip.isEmpty && fp.isEmpty) then
      some ((digitsToNat (ip ++ fp) : ℚ) / (10 : ℚ) ^ fp.length)
    else none
  | _ => none

/-- Parse the exponent digits after an e or E, with optional sign. -/
def parseExpDigits (cs : List Char) : Option Int :=
  match cs with
  | '-' :: ds =>
    if ds.all Char.isDigit && !ds.isEmpty then some (-(digitsToNat ds : Int)) else none
  | '+' :: ds =>
    if ds.all Char.isDigit && !ds.isEmpty then some ((digitsToNat ds : Int)) else none
  | ds =>
    if ds.all Char.isDigit && !ds.isEmpty then some ((digitsToNat ds : Int)) else none

/-- Parse an unsigned float literal, possibly with scientific exponent. -/
def parseUnsigned (cs : List Char) : Option ℚ :=
  let m := cs.takeWhile (fun c => !(c = 'e' || c = 'E'))
  let r := cs.drop m.length
  match r with
  | [] => parseMantissa m
  | _ :: ecs =>
    match parseMantissa m, parseExpDigits ecs with
    | some q, some e => some (q * (10 : ℚ) ^ e)
    | _, _ => none

/-- Model of Python float(s): optional leading sign then an unsigned literal.
Returns none where float() raises ValueError. -/
def parseFloat (s : String) : Option ℚ :=
  match s.toList with
  | '-' :: cs => (parseUnsigned cs).map (fun q => -q)
  | '+' :: cs => parseUnsigned cs
  | cs => parseUnsigned cs

/-! ## Data model -/

/-- The two supported venues. -/
inductive Platform where
  | Lighter
  | Hyperliquid
deriving DecidableEq, Repr

/-- The two supported assets. -/
inductive Asset where
  | BTC
  | ETH
deriving DecidableEq, Repr

/-! ## DOM-scrape adapter (main.py)

String cleaning mirrors the source: Python str.strip() and the two
str.replace calls that delete every occurrence of a single character.
-/

/-- Model of Python str.strip(): drop whitespace from both ends. -/
def pyStrip (s : String) : String :=
  String.mk (((s.toList.dropWhile Char.isWhitespace).reverse.dropWhile Char.isWhitespace).reverse)

/-- Model of s.replace(c, ...) deleting every occurrence of one character. -/
def removeChar (s : String) (c : Char) : String :=
  String.mk (s.toList.filter (fun x => x ≠ c))

/-- The cleaned value: currency characters dollar and comma removed,
as in the source's replace chain. -/
def stripCurrency (s : String) : String :=
  removeChar (removeChar s '$') ','

/-- Character class of the regex [\d,]. -/
def digComma (c : Char) : Bool := c.isDigit || c = ','

/-- A maximal nonempty digit run at the front of the input
(the final greedy backslash-d-plus of the regex). -/
def digitRun (cs : List Char) : Option (List Char) :=
  let run := cs.takeWhile Char.isDigit
  if run.isEmpty then none else some run

/-- One backtracking attempt of the regex tail after the dollar sign:
the class [\d,]+ consumes exactly k characters, then an optional dot,
then at least one digit. -/
def groupTry (cs : List Char) (k : Nat) : Option (List Char) :=
  if k = 0 then none else
  let pre := cs.take k
  let rest := cs.drop k
  match rest with
  | '.' :: r2 => (digitRun r2).map (fun ds => pre ++ '.' :: ds)
  | _ => (digitRun rest).map (fun ds => pre ++ ds)

/-- Greedy backtracking over the length consumed by [\d,]+, longest first. -/
def groupLoop (cs : List Char) : Nat → Option (List Char)
  | 0 => none
  | k + 1 =>
    match groupTry cs (k + 1) with
    | some g => some g
    | none => groupLoop cs k

/-- Match of the regex fragment [\d,]+\.?\d+ at the start of cs
(cs is the text just after the dollar sign), greedy as in Python re. -/
def matchDigitsTail (cs : List Char) : Option (List Char) :=
  groupLoop cs (cs.takeWhile digComma).length

/-- The literal label preceding the amount in the Hyperliquid regex. -/
def oiLabel : List Char := ("Open Interest").toList

/-- Bool test that pat occurs at the start of cs. -/
def startsWith : List Char → List Char → Bool
  | [], _ => true
  | _ :: _, [] => false
  | p :: ps, c :: cs => p = c && startsWith ps cs

/-- Attempt the whole pattern at one start position: the literal label,
a dollar sign, then the numeric tail.  Returns group(1) on success. -/
def hlTryAt (cs : List Char) : Option (List Char) :=
  if startsWith oiLabel cs then
    match cs.drop oiLabel.length with
    | '$' :: r2 => (matchDigitsTail r2).map (fun g => '$' :: g)
    | _ => none
  else none

/-- Leftmost search over all start positions, as re.search does. -/
def hlSearchAux : List Char → Option (List Char)
  | [] => none
  | c :: rest =>
    match hlTryAt (c :: rest) with
    | some g => some g
    | none => hlSearchAux rest

/-- Model of re.search applied to the Hyperliquid block text: the first
dollar amount directly following the Open Interest label. -/
def hlSearch (text : String) : Option String :=
  (hlSearchAux text.toList).map String.mk

/-- Embedding of format_oi_value from main.py: cleans the scraped text and
converts it to a nominal number in millions, returning the pair of the
parsed value (0 on any failure) and the cleaned text. -/
def format_oi_value (text : String) (platform : Platform) : ℚ × String :=
  match platform with
  | Platform.Hyperliquid =>
    match hlSearch text with
    | some oiString =>
      let oiStr := pyStrip oiString
      let cleaned := stripCurrency oiStr
      match parseFloat cleaned with
      | some q => (q / 1000000, oiStr)
      | none => (0, oiStr)
    | none => (0, "ERROR: Value not found by regex.")
  | Platform.Lighter =>
    if '%' ∈ text.toList then (0, text)
    else
      let oiStr := pyStrip text
      let cleaned := stripCurrency oiStr
      match parseFloat cleaned with
      | some q => (q / 1000000, oiStr)
      | none => (0, text)

/-- Embedding of scrape_market from main.py.  The page interaction (goto,
locator, text_content) either produces the element text or raises; the
whole interaction is inside try/except, so the adapter input is modelled
as an Except value and every error maps to the 0.0 sentinel. -/
def scrape_market (platform : Platform) (pageText : Except String String) : ℚ :=
  match pageText with
  | Except.error _ => 0
  | Except.ok text => (format_oi_value text platform).1

/-! ## Structured-API adapter (api_version/main.py)

JSON payloads are modelled by a small value type; Python operations that can
raise inside the adapters' try blocks (float on a non-numeric value, .get or
.upper on an object of the wrong type, a non-sequence where a list is
indexed) are modelled with Except, and the adapter converts every error to
the all-zero failed result, as the source's except branch does.
-/

/-- A decoded JSON value. -/
inductive JValue where
  | null
  | num (q : ℚ)
  | str (s : String)
  | arr (xs : List JValue)
  | obj (fields : List (String × JValue))

/-- Model of Python float applied to a JSON-decoded value: numbers pass
through, strings are parsed, anything else raises. -/
def pyFloat (j : JValue) : Except String ℚ :=
  match j with
  | JValue.num q => Except.ok q
  | JValue.str s =>
    match parseFloat s with
    | some q => Except.ok q
    | none => Except.error "ValueError"
  | _ => Except.error "TypeError"

/-- Model of m.get(key, dflt): dictionary lookup with a default, raising on
a receiver that is not a dictionary. -/
def jGetField (m : JValue) (key : String) (dflt : JValue) : Except String JValue :=
  match m with
  | JValue.obj fs => Except.ok ((fs.lookup key).getD dflt)
  | _ => Except.error "AttributeError"

/-- The Hyperliquid pair table: asset name to positional index. -/
def hlPairs : List (String × Nat) := [("BTC", 0), ("ETH", 1)]

/-- Model of data(1) if len(data) greater than 1 else the empty list, where
the asset contexts must come out as a JSON array for the per-pair loop. -/
def hlAssetCtxs (data : JValue) : Except String (List JValue) :=
  match data with
  | JValue.arr xs =>
    if 1 < xs.length then
      match xs.getD 1 JValue.null with
      | JValue.arr ctxs => Except.ok ctxs
      | _ => Except.error "TypeError"
    else Except.ok []
  | _ => Except.error "TypeError"

/-- One pair of the Hyperliquid loop body: guard the positional index, read
openInterest (default string zero) and markPx (default string one), and
convert quantity times mark price to USD millions. -/
def hlPairValue (ctxs : List JValue) (idx : Nat) : Except String ℚ :=
  if h : idx < ctxs.length then
    match ctxs.get ⟨idx, h⟩ with
    | JValue.obj fs =>
      match pyFloat ((fs.lookup "openInterest").getD (JValue.str "0")) with
      | Except.error e => Except.error e
      | Except.ok oiRaw =>
        match pyFloat ((fs.lookup "markPx").getD (JValue.str "1")) with
        | Except.error e => Except.error e
        | Except.ok markPx => Except.ok (oiRaw * markPx / 1000000)
    | _ => Except.error "AttributeError"
  else Except.ok 0

/-- The Hyperliquid per-pair loop, aborting on the first raised error. -/
def hlLoop (ctxs : List JValue) : List (String × Nat) → Except String (List (String × ℚ))
  | [] => Except.ok []
  | p :: rest =>
    match hlPairValue ctxs p.2 with
    | Except.error e => Except.error e
    | Except.ok v =>
      match hlLoop ctxs rest with
      | Except.error e => Except.error e
      | Except.ok tl => Except.ok ((p.1, v) :: tl)

/-- Everything inside the try block of fetch_hyperliquid_oi after the
response has been decoded. -/
def fetchHLCompute (data : JValue) : Except String (List (String × ℚ)) :=
  match hlAssetCtxs data with
  | Except.error e => Except.error e
  | Except.ok ctxs => hlLoop ctxs hlPairs

/-- The all-zero result the except branch of fetch_hyperliquid_oi builds. -/
def hlFailed : List (String × ℚ) := hlPairs.map (fun p => (p.1, 0))

/-- Embedding of fetch_hyperliquid_oi: a network error or any error raised
while decoding the payload yields the all-zero failed result. -/
def fetch_hyperliquid_oi (resp : Except String JValue) : List (String × ℚ) :=
  match resp with
  | Except.error _ => hlFailed
  | Except.ok data =>
    match fetchHLCompute data with
    | Except.ok results => results
    | Except.error _ => hlFailed

/-- The Lighter pair list. -/
def lighterPairs : List String := ["BTC", "ETH"]

/-- Substring test, as the Python in operator on strings. -/
def containsSub (needle hay : List Char) : Bool :=
  match hay with
  | [] => needle.isEmpty
  | _ :: t => startsWith needle hay || containsSub needle t

/-- Model of .upper() which raises on a non-string value. -/
def jUpper (v : JValue) : Except String String :=
  match v with
  | JValue.str s => Except.ok s.toUpper
  | _ => Except.error "AttributeError"

/-- The scan of the Lighter market list: the first market whose upper-cased
symbol contains the pair name, with the symbol accesses able to raise. -/
def lighterFind (pair : String) : List JValue → Except String (Option JValue)
  | [] => Except.ok none
  | m :: rest =>
    match jGetField m "symbol" (JValue.str "") with
    | Except.error e => Except.error e
    | Except.ok sv =>
      match jUpper sv with
      | Except.error e => Except.error e
      | Except.ok sym =>
        if containsSub pair.toList sym.toList then Except.ok (some m)
        else lighterFind pair rest

/-- One pair of the Lighter loop body: list payloads are scanned by symbol,
dictionary payloads are looked up by the pair-PERP key, anything else (and
any unmatched pair) gives the 0.0 sentinel. -/
def lighterPairValue (data : JValue) (pair : String) : Except String ℚ :=
  match data with
  | JValue.arr markets =>
    match lighterFind pair markets with
    | Except.error e => Except.error e
    | Except.ok (some m) =>
      match jGetField m "openInterest" (JValue.num 0) with
      | Except.error e => Except.error e
      | Except.ok v =>
        match pyFloat v with
        | Except.error e => Except.error e
        | Except.ok q => Except.ok (q / 1000000)
    | Except.ok none => Except.ok 0
  | JValue.obj fs =>
    match fs.lookup (pair ++ "-PERP") with
    | some mv =>
      match jGetField mv "openInterest" (JValue.num 0) with
      | Except.error e => Except.error e
      | Except.ok v =>
        match pyFloat v with
        | Except.error e => Except.error e
        | Except.ok q => Except.ok (q / 1000000)
    | none => Except.ok 0
  | _ => Except.ok 0

/-- The Lighter per-pair loop, aborting on the first raised error. -/
def lighterLoop (data : JValue) : List String → Except String (List (String × ℚ))
  | [] => Except.ok []
  | p :: rest =>
    match lighterPairValue data p with
    | Except.error e => Except.error e
    | Except.ok v =>
      match lighterLoop data rest with
      | Except.error e => Except.error e
      | Except.ok tl => Except.ok ((p, v) :: tl)

/-- The all-zero result of the except branch of fetch_lighter_oi. -/
def lighterFailed : List (String × ℚ) := lighterPairs.map (fun p => (p, 0))

/-- Embedding of fetch_lighter_oi. -/
def fetch_lighter_oi (resp : Except String JValue) : List (String × ℚ) :=
  match resp with
  | Except.error _ => lighterFailed
  | Except.ok data =>
    match lighterLoop data lighterPairs with
    | Except.ok r => r
    | Except.error _ => lighterFailed

/-! ## Collection cycle batches -/

/-- One CSV row appended during a cycle. -/
structure CycleRow where
  ts : String
  platform : Platform
  pair : String
  oi : ℚ
deriving DecidableEq, Repr

/-- Iteration order of PLATFORM_CONFIG in main.py: both pairs of Lighter,
then both pairs of Hyperliquid. -/
def platform_pairs : List (Platform × String) :=
  [(Platform.Lighter, "BTC"), (Platform.Lighter, "ETH"),
   (Platform.Hyperliquid, "BTC"), (Platform.Hyperliquid, "ETH")]

/-- The batch one cycle of main.py (DOM scraper) appends: one row per
configured pair, all tagged with the timestamp captured at cycle start.
The page interactions are abstracted by the scrape oracle. -/
def cycle_records_dom (ts : String) (scrape : Platform → String → ℚ) : List CycleRow :=
  platform_pairs.map (fun pp => ⟨ts, pp.1, pp.2, scrape pp.1 pp.2⟩)

/-- The batch one cycle of api_version/main.py appends: the Hyperliquid
result items, then the Lighter result items, all with the shared cycle
timestamp. -/
def cycle_records_api (ts : String) (respHL respL : Except String JValue) : List CycleRow :=
  (fetch_hyperliquid_oi respHL).map (fun pv => ⟨ts, Platform.Hyperliquid, pv.1, pv.2⟩)
    ++ (fetch_lighter_oi respL).map (fun pv => ⟨ts, Platform.Lighter, pv.1, pv.2⟩)

/-! ## Ratio engine (calculate_ratio in app.py and streamlit_app.py)

The persisted series is a list of records; timestamps are rationals (seconds
since an epoch, to second precision).  The pandas pivot is modelled column
by column: the pivot index is the sorted list of distinct timestamps, a cell
is the mean of the matching observations (missing when there are none), and
the replace-zero-then-forward-fill step is the per-column operation
ffillColumn below.  Missing cells contribute zero when a venue's columns are
summed, as pandas sum with skipna does.
-/

/-- One persisted OI observation, as the analytics layer reads it back. -/
structure Record where
  ts : ℚ
  platform : Platform
  asset : Asset
  oi : ℚ
deriving DecidableEq, Repr

/-- One derived row of the ratio table. -/
structure RatioRow where
  ts : ℚ
  lSum : ℚ
  hSum : ℚ
  ratio : Option ℚ
deriving DecidableEq, Repr

/-- The pivot index: distinct timestamps in ascending order. -/
def timestampsOf (df : List Record) : List ℚ :=
  List.insertionSort (fun a b => a ≤ b) (df.map Record.ts).dedup

/-- One pivot cell: the mean of the observations for the timestamp and
(venue, asset) column, missing when there are none. -/
def cellMean (df : List Record) (t : ℚ) (p : Platform) (a : Asset) : Option ℚ :=
  let vs := (df.filter (fun r => decide (r.ts = t ∧ r.platform = p ∧ r.asset = a))).map Record.oi
  if vs.length = 0 then none else some (vs.sum / (vs.length : ℚ))

/-- One whole pivot column over the pivot index. -/
def pivotColumn (df : List Record) (p : Platform) (a : Asset) : List (Option ℚ) :=
  (timestampsOf df).map (fun t => cellMean df t p a)

/-- The replace step of the source: an exact zero becomes missing. -/
def zeroToNA (x : Option ℚ) : Option ℚ :=
  match x with
  | some q => if q = 0 then none else some q
  | none => none

/-- Forward fill carrying the last present value downward. -/
def ffillFrom (carry : Option ℚ) : List (Option ℚ) → List (Option ℚ)
  | [] => []
  | none :: xs => carry :: ffillFrom carry xs
  | some v :: xs => some v :: ffillFrom (some v) xs

/-- The column transform of the source line: replace exact zeros by missing,
then forward fill. -/
def ffillColumn (col : List (Option ℚ)) : List (Option ℚ) :=
  ffillFrom none (col.map zeroToNA)

/-- The most recent entry of a column prefix that is present and nonzero,
starting from a carried value. -/
def lastNZ (carry : Option ℚ) (col : List (Option ℚ)) : Option ℚ :=
  col.foldl (fun acc x =>
    match zeroToNA x with
    | some v => some v
    | none => acc) carry

/-- The platforms observed in the data, in first-appearance order. -/
def platformsOf (df : List Record) : List Platform := (df.map Record.platform).dedup

/-- The assets observed in the data, in first-appearance order. -/
def assetsOf (df : List Record) : List Asset := (df.map Record.asset).dedup

/-- Pivot columns of app.py: the category columns with observed set to false
give every (platform, asset) combination of the observed category levels. -/
def columnsApp (df : List Record) : List (Platform × Asset) :=
  (platformsOf df).flatMap (fun p => (assetsOf df).map (fun a => (p, a)))

/-- Pivot columns of streamlit_app.py: plain object columns give only the
(platform, asset) pairs that occur in the data. -/
def columnsS (df : List Record) : List (Platform × Asset) :=
  (df.map (fun r => (r.platform, r.asset))).dedup

/-- The venue total at pivot row i: the forward-filled columns of the venue
summed with missing cells contributing zero. -/
def venueSumAt (df : List Record) (cols : List (Platform × Asset)) (p : Platform) (i : Nat) : ℚ :=
  ((cols.filter (fun pa => decide (pa.1 = p))).map
    (fun pa => ((ffillColumn (pivotColumn df pa.1 pa.2)).getD i none).getD 0)).sum

/-- The ratio table shared by both dashboards, parametrised by the
per-row ratio rule applied to the two venue sums. -/
def ratioRows (df : List Record) (cols : List (Platform × Asset))
    (mk : ℚ → ℚ → Option ℚ) : List RatioRow :=
  ((timestampsOf df).enum).map (fun it =>
    let ls := venueSumAt df cols Platform.Lighter it.1
    let hs := venueSumAt df cols Platform.Hyperliquid it.1
    ⟨it.2, ls, hs, mk ls hs⟩)

namespace App

/-- Embedding of calculate_ratio from app.py: a positive Hyperliquid total
gives the quotient, otherwise the ratio cell is missing (NaN). -/
def calculate_ratio (df : List Record) : List RatioRow :=
  ratioRows df (columnsApp df) (fun ls hs => if 0 < hs then some (ls / hs) else none)

end App

namespace SApp

/-- Embedding of calculate_ratio from streamlit_app.py: a positive
Hyperliquid total gives the quotient, otherwise the defined value 0.0. -/
def calculate_ratio (df : List Record) : List RatioRow :=
  ratioRows df (columnsS df) (fun ls hs => if 0 < hs then some (ls / hs) else some 0)

end SApp

/-! ## Linear trend and projections (app.py) -/

/-- Closed form of np.polyfit(x, y, 1): the degree-one least-squares fit by
the normal equations. -/
def polyfit1 (x y : List ℚ) : ℚ × ℚ :=
  let n : ℚ := x.length
  let sx := x.sum
  let sy := y.sum
  let sxx := (x.map (fun v => v * v)).sum
  let sxy := (List.zipWith (fun a b => a * b) x y).sum
  let d := n * sxx - sx * sx
  let m := (n * sxy - sx * sy) / d
  (m, (sy - m * sx) / n)

/-- Embedding of calculate_linear_trend from app.py.  With fewer than two
rows of defined ratio the result is degenerate (no Time_Days column is
added, slope and intercept are zero); otherwise the fit runs over elapsed
days since the first defined-ratio timestamp, and the Time_Days column for
the full table is returned along with slope and intercept. -/
def calculate_linear_trend (rows : List RatioRow) : Option (List ℚ) × ℚ × ℚ :=
  let valid := rows.filter (fun r => r.ratio.isSome)
  if valid.length < 2 then (none, 0, 0)
  else
    let t0 := ((valid.head?).map RatioRow.ts).getD 0
    let x := valid.map (fun r => (r.ts - t0) / 86400)
    let y := valid.map (fun r => (r.ratio).getD 0)
    let mc := polyfit1 x y
    (some (rows.map (fun r => (r.ts - t0) / 86400)), mc.1, mc.2)

/-- The projection horizon table of display_projections. -/
def projection_days : List (String × ℚ) :=
  [("1d", 1), ("7d", 7), ("30d", 30), ("90d", 90), ("1y", 365)]

/-- Embedding of display_projections: the trend line evaluated at the last
Time_Days value plus each horizon. -/
def display_projections (timeDays : List ℚ) (m c : ℚ) : List (String × ℚ) :=
  let lastTimeDays := (timeDays.getLast?).getD 0
  projection_days.map (fun p => (p.1, m * (lastTimeDays + p.2) + c))

/-- The projection gate of main_app_website: projections are rendered
exactly when the fitted slope is nonzero. -/
def projectionsOffered (m : ℚ) : Bool := decide (m ≠ 0)

/-- Elapsed days of the first defined-ratio row, the trend fit's origin. -/
def trendT0 (rows : List RatioRow) : ℚ :=
  (((rows.filter (fun r => r.ratio.isSome)).head?).map RatioRow.ts).getD 0

/-- The fit points: elapsed days since the first defined-ratio timestamp
paired with the ratio, over defined-ratio rows only. -/
def validPts (rows : List RatioRow) : List (ℚ × ℚ) :=
  (rows.filter (fun r => r.ratio.isSome)).map
    (fun r => ((r.ts - trendT0 rows) / 86400, (r.ratio).getD 0))

/-- Elapsed days of the last row of the full ratio table. -/
def elapsedLastDays (rows : List RatioRow) : ℚ :=
  (((rows.getLast?).map RatioRow.ts).getD 0 - trendT0 rows) / 86400

/-- Sum of squared residuals of a candidate line over a point set. -/
def sse (pts : List (ℚ × ℚ)) (m c : ℚ) : ℚ :=
  (pts.map (fun p => (p.2 - (m * p.1 + c)) ^ 2)).sum

/-! ## Forward-fill lemmas -/

/-- The fold step that keeps the most recent present value. -/
def stepKeep (acc x : Option ℚ) : Option ℚ :=
  match x with
  | some v => some v
  | none => acc

lemma lastNZ_eq_foldl (carry : Option ℚ) (col : List (Option ℚ)) :
    lastNZ carry col = (col.map zeroToNA).foldl stepKeep carry := by
  rw [List.foldl_map]
  rfl

lemma ffillFrom_length (carry : Option ℚ) (l : List (Option ℚ)) :
    (ffillFrom carry l).length = l.length := by
  induction l generalizing carry with
  | nil => rfl
  | cons x xs ih => cases x <;> simp [ffillFrom, ih]

lemma ffillFrom_getD (l : List (Option ℚ)) (carry : Option ℚ) (i : Nat) (h : i < l.length) :
    (ffillFrom carry l).getD i none = (l.take (i + 1)).foldl stepKeep carry := by
  induction l generalizing carry i with
  | nil => simp at h
  | cons x xs ih =>
    cases x with
    | none =>
      cases i with
      | zero => simp [ffillFrom, stepKeep]
      | succ j =>
        simp only [ffillFrom, List.getD_cons_succ, List.take_succ_cons, List.foldl_cons]
        exact ih carry j (by simpa using h)
    | some v =>
      cases i with
      | zero => simp [ffillFrom, stepKeep]
      | succ j =>
        simp only [ffillFrom, List.getD_cons_succ, List.take_succ_cons, List.foldl_cons]
        exact ih (some v) j (by simpa using h)

lemma ffillColumn_getD (col : List (Option ℚ)) (i : Nat) (h : i < col.length) :
    (ffillColumn col).getD i none = lastNZ none (col.take (i + 1)) := by
  rw [ffillColumn, ffillFrom_getD (col.map zeroToNA) none i (by simpa using h),
    lastNZ_eq_foldl, List.map_take]

lemma lastNZ_append_one (carry : Option ℚ) (l : List (Option ℚ)) (x : Option ℚ) :
    lastNZ carry (l ++ [x]) = stepKeep (lastNZ carry l) (zeroToNA x) := by
  simp [lastNZ_eq_foldl, List.foldl_append]

lemma take_succ_get (col : List (Option ℚ)) (i : Nat) (h : i < col.length) :
    col.take (i + 1) = col.take i ++ [col.get ⟨i, h⟩] := by
  rw [List.take_succ, List.getElem?_eq_getElem h]
  rfl

/-- The forward-fill behaviour of one pivot column, claim C2: a cell whose
recorded value is exactly zero is replaced by the most recent prior cell
that is present and nonzero; a nonzero recorded value is kept; and when no
prior nonzero value exists a zeroed cell stays missing, so it contributes
zero to the venue sum. -/
theorem C2_forward_fill (col : List (Option ℚ)) (i : Nat) (h : i < col.length) :
    (col.get ⟨i, h⟩ = some 0 →
      (ffillColumn col).getD i none = lastNZ none (col.take i)
      ∧ (lastNZ none (col.take i) = none → ((ffillColumn col).getD i none).getD 0 = 0))
    ∧ (∀ v : ℚ, col.get ⟨i, h⟩ = some v → v ≠ 0 →
      (ffillColumn col).getD i none = some v) := by
  have hsplit : col.take (i + 1) = col.take i ++ [col.get ⟨i, h⟩] := take_succ_get col i h
  constructor
  · intro h0
    have hmain : (ffillColumn col).getD i none = lastNZ none (col.take i) := by
      rw [ffillColumn_getD col i h, hsplit, lastNZ_append_one, h0]
      simp [zeroToNA, stepKeep]
    refine ⟨hmain, fun hnone => ?_⟩
    rw [hmain, hnone]
    rfl
  · intro v hv hne
    rw [ffillColumn_getD col i h, hsplit, lastNZ_append_one, hv]
    simp [zeroToNA, stepKeep, hne]

/-- Witness for C2 at a concrete column: the zero in cell 2 is replaced by
the value 5 recorded at cell 1, and in a column whose first cell is zero the
cell stays missing and contributes zero. -/
theorem C2_forward_fill_witness :
    (ffillColumn [some 5, some 0, none]).getD 1 none = lastNZ none [some 5]
    ∧ ((ffillColumn [some 0, some 7]).getD 0 none).getD 0 = 0 := by
  constructor
  · exact ((C2_forward_fill [some 5, some 0, none] 1 (by decide)).1 (by decide)).1
  · exact ((C2_forward_fill [some 0, some 7] 0 (by decide)).1 (by decide)).2 (by decide)

/-! ## Ordinary least squares: the closed-form fit minimises the sum of
squared residuals whenever the abscissas are not all equal. -/

/-- Sum of abscissas of a point list. -/
def Sx (pts : List (ℚ × ℚ)) : ℚ := (pts.map Prod.fst).sum

/-- Sum of ordinates of a point list. -/
def Sy (pts : List (ℚ × ℚ)) : ℚ := (pts.map Prod.snd).sum

/-- Sum of squared abscissas. -/
def Sxx (pts : List (ℚ × ℚ)) : ℚ := (pts.map (fun p => p.1 * p.1)).sum

/-- Sum of coordinate products. -/
def Sxy (pts : List (ℚ × ℚ)) : ℚ := (pts.map (fun p => p.1 * p.2)).sum

/-- Number of points, as a rational. -/
def nQ (pts : List (ℚ × ℚ)) : ℚ := pts.length

/-- Closed-form least-squares slope over a point list. -/
def fitSlope (pts : List (ℚ × ℚ)) : ℚ :=
  (nQ pts * Sxy pts - Sx pts * Sy pts) / (nQ pts * Sxx pts - Sx pts * Sx pts)

/-- Closed-form least-squares intercept over a point list. -/
def fitIntercept (pts : List (ℚ × ℚ)) : ℚ :=
  (Sy pts - fitSlope pts * Sx pts) / nQ pts

lemma zipWith_mul_map (pts : List (ℚ × ℚ)) :
    List.zipWith (fun a b => a * b) (pts.map Prod.fst) (pts.map Prod.snd)
      = pts.map (fun p => p.1 * p.2) := by
  induction pts with
  | nil => rfl
  | cons p l ih => simp [ih]

lemma map_fst_sq (pts : List (ℚ × ℚ)) :
    (pts.map Prod.fst).map (fun v => v * v) = pts.map (fun p => p.1 * p.1) := by
  induction pts with
  | nil => rfl
  | cons p l ih => simp [ih]

lemma polyfit1_eq_fit (pts : List (ℚ × ℚ)) :
    polyfit1 (pts.map Prod.fst) (pts.map Prod.snd) = (fitSlope pts, fitIntercept pts) := by
  simp only [polyfit1]
  rw [zipWith_mul_map, map_fst_sq, List.length_map]
  unfold fitSlope fitIntercept Sx Sy Sxx Sxy nQ
  rfl

lemma sum_residual (pts : List (ℚ × ℚ)) (m c : ℚ) :
    (pts.map (fun p => p.2 - m * p.1 - c)).sum = Sy pts - m * Sx pts - nQ pts * c := by
  induction pts with
  | nil => simp [Sx, Sy, nQ]
  | cons p l ih =>
    simp only [List.map_cons, List.sum_cons, Sx, Sy, nQ, List.length_cons] at ih ⊢
    push_cast
    linear_combination ih

lemma sum_xresidual (pts : List (ℚ × ℚ)) (m c : ℚ) :
    (pts.map (fun p => p.1 * (p.2 - m * p.1 - c))).sum
      = Sxy pts - m * Sxx pts - c * Sx pts := by
  induction pts with
  | nil => simp [Sx, Sxx, Sxy]
  | cons p l ih =>
    simp only [List.map_cons, List.sum_cons, Sx, Sxx, Sxy] at ih ⊢
    linear_combination ih

lemma sse_decomp (pts : List (ℚ × ℚ)) (m c mq cq : ℚ) :
    sse pts mq cq = sse pts m c
      + 2 * (m - mq) * (pts.map (fun p => p.1 * (p.2 - m * p.1 - c))).sum
      + 2 * (c - cq) * (pts.map (fun p => p.2 - m * p.1 - c)).sum
      + (pts.map (fun p => ((m - mq) * p.1 + (c - cq)) ^ 2)).sum := by
  induction pts with
  | nil => simp [sse]
  | cons p l ih =>
    simp only [sse, List.map_cons, List.sum_cons] at ih ⊢
    linear_combination ih

lemma sum_sq_nonneg {α : Type} (l : List α) (f : α → ℚ) :
    0 ≤ (l.map (fun a => f a ^ 2)).sum := by
  induction l with
  | nil => simp
  | cons a t ih =>
    simp only [List.map_cons, List.sum_cons]
    have := sq_nonneg (f a)
    linarith

lemma nQ_ne_zero (pts : List (ℚ × ℚ)) (hne : pts ≠ []) : nQ pts ≠ 0 := by
  simp only [nQ]
  exact_mod_cast fun h =>
    hne (List.eq_nil_of_length_eq_zero (by exact_mod_cast h))

lemma normal_eq1 (pts : List (ℚ × ℚ)) (hne : pts ≠ []) :
    Sy pts - fitSlope pts * Sx pts - nQ pts * fitIntercept pts = 0 := by
  have hn := nQ_ne_zero pts hne
  rw [fitIntercept]
  field_simp

lemma normal_eq2 (pts : List (ℚ × ℚ)) (hne : pts ≠ [])
    (hd : nQ pts * Sxx pts - Sx pts * Sx pts ≠ 0) :
    Sxy pts - fitSlope pts * Sxx pts - fitIntercept pts * Sx pts = 0 := by
  have hn := nQ_ne_zero pts hne
  rw [fitIntercept, fitSlope]
  field_simp
  ring

/-- The closed-form line is a least-squares minimiser: every other candidate
line has at least as large a sum of squared residuals. -/
theorem fit_is_ols (pts : List (ℚ × ℚ)) (hne : pts ≠ [])
    (hd : nQ pts * Sxx pts - Sx pts * Sx pts ≠ 0) (mq cq : ℚ) :
    sse pts (fitSlope pts) (fitIntercept pts) ≤ sse pts mq cq := by
  have hdec := sse_decomp pts (fitSlope pts) (fitIntercept pts) mq cq
  rw [sum_residual, sum_xresidual, normal_eq1 pts hne, normal_eq2 pts hne hd] at hdec
  have hsq := sum_sq_nonneg pts (fun p => (fitSlope pts - mq) * p.1 + (fitIntercept pts - cq))
  simp only [mul_zero, add_zero] at hdec
  linarith

lemma sum_shift_sq (a : ℚ) (l : List ℚ) :
    (l.map (fun x => (a - x) ^ 2)).sum
      = (l.length : ℚ) * a ^ 2 - 2 * a * l.sum + (l.map (fun x => x * x)).sum := by
  induction l with
  | nil => simp
  | cons b t ih =>
    simp only [List.map_cons, List.sum_cons, List.length_cons] at ih ⊢
    push_cast
    linear_combination ih

lemma cs_cons_step (a : ℚ) (t : List ℚ) :
    ((a :: t).length : ℚ) * ((a :: t).map (fun x => x * x)).sum
        - (a :: t).sum * (a :: t).sum
      = ((t.length : ℚ) * (t.map (fun x => x * x)).sum - t.sum * t.sum)
        + (t.map (fun x => (a - x) ^ 2)).sum := by
  have hexp := sum_shift_sq a t
  simp only [List.length_cons, List.map_cons, List.sum_cons]
  push_cast
  linear_combination -hexp

lemma cs_nonneg (l : List ℚ) :
    0 ≤ (l.length : ℚ) * (l.map (fun x => x * x)).sum - l.sum * l.sum := by
  induction l with
  | nil => simp
  | cons a t ih =>
    rw [cs_cons_step]
    have := sum_sq_nonneg t (fun x => a - x)
    linarith

lemma sum_sq_pos_of_mem (a b : ℚ) (l : List ℚ) (hb : b ∈ l) (hab : a ≠ b) :
    0 < (l.map (fun x => (a - x) ^ 2)).sum := by
  induction l with
  | nil => cases hb
  | cons c t ih =>
    simp only [List.map_cons, List.sum_cons]
    rcases List.mem_cons.mp hb with rfl | hbt
    · have hne : a - b ≠ 0 := sub_ne_zero_of_ne hab
      have h1 : 0 < (a - b) ^ 2 := lt_of_le_of_ne (sq_nonneg _) (Ne.symm (pow_ne_zero 2 hne))
      have h2 := sum_sq_nonneg t (fun x => a - x)
      linarith
    · have h1 := ih hbt
      have h2 := sq_nonneg (a - c)
      linarith

lemma cs_pos (l : List ℚ) (hs : l.Pairwise (fun a b => a < b)) (h2 : 2 ≤ l.length) :
    0 < (l.length : ℚ) * (l.map (fun x => x * x)).sum - l.sum * l.sum := by
  match l, hs, h2 with
  | a :: b :: t, hs, _ =>
    have hab : a ≠ b := ne_of_lt ((List.pairwise_cons.mp hs).1 b (by simp))
    have hpos := sum_sq_pos_of_mem a b (b :: t) (by simp) hab
    have hnn := cs_nonneg (b :: t)
    rw [cs_cons_step]
    linarith

lemma d_pos_of_sorted (pts : List (ℚ × ℚ))
    (hs : (pts.map Prod.fst).Pairwise (fun a b => a < b)) (h2 : 2 ≤ pts.length) :
    0 < nQ pts * Sxx pts - Sx pts * Sx pts := by
  have := cs_pos (pts.map Prod.fst) hs (by simpa using h2)
  simpa [nQ, Sx, Sxx, List.map_map, Function.comp] using this

/-! ## The embedded trend computation equals the closed-form fit -/

lemma validPts_fst (rows : List RatioRow) :
    (validPts rows).map Prod.fst
      = (rows.filter (fun r => r.ratio.isSome)).map
          (fun r => (r.ts - trendT0 rows) / 86400) := by
  unfold validPts
  rw [List.map_map]
  rfl

lemma validPts_snd (rows : List RatioRow) :
    (validPts rows).map Prod.snd
      = (rows.filter (fun r => r.ratio.isSome)).map (fun r => (r.ratio).getD 0) := by
  unfold validPts
  rw [List.map_map]
  rfl

lemma trend_eq_fit (rows : List RatioRow)
    (h2 : 2 ≤ (rows.filter (fun r => r.ratio.isSome)).length) :
    calculate_linear_trend rows
      = (some (rows.map (fun r => (r.ts - trendT0 rows) / 86400)),
         fitSlope (validPts rows), fitIntercept (validPts rows)) := by
  have hlt : ¬ ((rows.filter (fun r => r.ratio.isSome)).length < 2) := not_lt.mpr h2
  simp only [calculate_linear_trend, if_neg hlt]
  rw [show ((((rows.filter (fun r => r.ratio.isSome)).head?).map RatioRow.ts).getD 0)
      = trendT0 rows from rfl]
  rw [← validPts_fst, ← validPts_snd, polyfit1_eq_fit]

lemma validPts_length (rows : List RatioRow) :
    (validPts rows).length = (rows.filter (fun r => r.ratio.isSome)).length := by
  simp [validPts]

lemma validPts_sorted (rows : List RatioRow)
    (hsort : rows.Pairwise (fun a b => a.ts < b.ts)) :
    ((validPts rows).map Prod.fst).Pairwise (fun a b => a < b) := by
  rw [validPts_fst]
  have h1 : (rows.filter (fun r => r.ratio.isSome)).Pairwise (fun a b => a.ts < b.ts) :=
    hsort.sublist (List.filter_sublist rows)
  exact h1.map _ (fun a b hab => by
    have hsub := sub_lt_sub_right hab (trendT0 rows)
    exact (div_lt_div_iff_of_pos_right (by norm_num)).mpr hsub)

/-- Claim C3: with fewer than two defined-ratio rows the trend is the
degenerate (slope, intercept) = (0, 0) with no Time_Days column and no
projections offered; with at least two such rows (timestamps strictly
increasing, as the pivot index is), the returned slope and intercept are an
ordinary least-squares minimiser of the squared residuals over the points
(elapsed days since the first defined-ratio timestamp, ratio), using only
defined-ratio rows. -/
theorem C3_trend_fit (rows : List RatioRow) :
    ((rows.filter (fun r => r.ratio.isSome)).length < 2 →
      calculate_linear_trend rows = (none, 0, 0)
      ∧ projectionsOffered (calculate_linear_trend rows).2.1 = false)
    ∧ (2 ≤ (rows.filter (fun r => r.ratio.isSome)).length →
      rows.Pairwise (fun a b => a.ts < b.ts) →
      ∀ mq cq : ℚ,
        sse (validPts rows) (calculate_linear_trend rows).2.1 (calculate_linear_trend rows).2.2
          ≤ sse (validPts rows) mq cq) := by
  constructor
  · intro h
    constructor
    · simp [calculate_linear_trend, if_pos h]
    · simp [calculate_linear_trend, if_pos h, projectionsOffered]
  · intro h2 hsort mq cq
    rw [trend_eq_fit rows h2]
    show sse (validPts rows) (fitSlope (validPts rows)) (fitIntercept (validPts rows))
      ≤ sse (validPts rows) mq cq
    have hlen : 2 ≤ (validPts rows).length := by rw [validPts_length]; exact h2
    apply fit_is_ols
    · intro hnil
      rw [hnil] at hlen
      simp at hlen
    · exact ne_of_gt (d_pos_of_sorted (validPts rows) (validPts_sorted rows hsort) hlen)

/-- Concrete witness for C3: two defined points, strictly increasing
timestamps; the fitted line beats the candidate line y = 5 t + 7. -/
def exRowsC3 : List RatioRow := [⟨0, 1, 1, some 1⟩, ⟨86400, 3, 1, some 3⟩]

theorem C3_trend_fit_witness :
    sse (validPts exRowsC3) (calculate_linear_trend exRowsC3).2.1
        (calculate_linear_trend exRowsC3).2.2
      ≤ sse (validPts exRowsC3) 5 7 :=
  (C3_trend_fit exRowsC3).2 (by decide) (by decide) 5 7

/-! ## Horizontal data gives slope exactly zero -/

lemma Sxy_of_const (pts : List (ℚ × ℚ)) (k : ℚ) (h : ∀ p ∈ pts, p.2 = k) :
    Sxy pts = k * Sx pts := by
  induction pts with
  | nil => simp [Sxy, Sx]
  | cons p l ih =>
    have hp := h p (by simp)
    have hl := ih (fun q hq => h q (by simp [hq]))
    simp only [Sxy, Sx, List.map_cons, List.sum_cons] at hl ⊢
    rw [hp, hl]
    ring

lemma Sy_of_const (pts : List (ℚ × ℚ)) (k : ℚ) (h : ∀ p ∈ pts, p.2 = k) :
    Sy pts = nQ pts * k := by
  induction pts with
  | nil => simp [Sy, nQ]
  | cons p l ih =>
    have hp := h p (by simp)
    have hl := ih (fun q hq => h q (by simp [hq]))
    simp only [Sy, nQ, List.map_cons, List.sum_cons, List.length_cons] at hl ⊢
    rw [hp, hl]
    push_cast
    ring

/-- Claim C10: the dashboard offers projections exactly when the fitted
slope is nonzero, and a series whose defined-ratio points are exactly
horizontal fits slope exactly zero, so no projections are offered, the same
outcome as the degenerate fewer-than-two-points case. -/
theorem C10_projection_gate :
    (∀ m : ℚ, projectionsOffered m = true ↔ m ≠ 0)
    ∧ ∀ (rows : List RatioRow) (k : ℚ),
        2 ≤ (rows.filter (fun r => r.ratio.isSome)).length →
        rows.Pairwise (fun a b => a.ts < b.ts) →
        (∀ r ∈ rows.filter (fun r => r.ratio.isSome), r.ratio = some k) →
        (calculate_linear_trend rows).2.1 = 0
        ∧ projectionsOffered (calculate_linear_trend rows).2.1 = false := by
  constructor
  · intro m
    simp [projectionsOffered]
  · intro rows k h2 hsort hconst
    have hsnd : ∀ p ∈ validPts rows, p.2 = k := by
      intro p hp
      obtain ⟨r, hr, rfl⟩ := List.mem_map.mp hp
      show (r.ratio).getD 0 = k
      rw [hconst r hr]
      rfl
    have hslope : (calculate_linear_trend rows).2.1 = 0 := by
      rw [trend_eq_fit rows h2]
      show fitSlope (validPts rows) = 0
      rw [fitSlope, Sxy_of_const _ k hsnd, Sy_of_const _ k hsnd]
      rw [show nQ (validPts rows) * (k * Sx (validPts rows))
          - Sx (validPts rows) * (nQ (validPts rows) * k) = 0 from by ring]
      exact zero_div _
    refine ⟨hslope, ?_⟩
    rw [hslope]
    simp [projectionsOffered]

/-- Concrete witness for C10: two rows with the same defined ratio. -/
def exRowsC10 : List RatioRow := [⟨0, 3, 1, some 3⟩, ⟨86400, 3, 1, some 3⟩]

theorem C10_projection_gate_witness :
    (calculate_linear_trend exRowsC10).2.1 = 0
    ∧ projectionsOffered (calculate_linear_trend exRowsC10).2.1 = false :=
  C10_projection_gate.2 exRowsC10 3 (by decide) (by decide) (by decide)

/-! ## Projections start from the last row of the full series -/

lemma getLast?_map {α β : Type} (f : α → β) (l : List α) :
    (l.map f).getLast? = (l.getLast?).map f := by
  induction l with
  | nil => rfl
  | cons a t ih =>
    cases t with
    | nil => rfl
    | cons b u => simpa using ih

/-- Claim C4: whenever the trend is non-degenerate, the displayed projection
for each horizon h in the design set 1, 7, 30, 90, 365 days is exactly
slope times (t_last + h) plus intercept, where t_last is the elapsed-days
value of the last row of the full ratio table (all timestamps, not only the
defined-ratio ones). -/
theorem C4_projection_formula (rows : List RatioRow) (hne : rows ≠ []) :
    ∀ (tds : List ℚ) (m c : ℚ), calculate_linear_trend rows = (some tds, m, c) →
      display_projections tds m c
        = projection_days.map (fun p => (p.1, m * (elapsedLastDays rows + p.2) + c))
      ∧ projection_days.map Prod.snd = [1, 7, 30, 90, 365] := by
  intro tds m c heq
  by_cases h2 : (rows.filter (fun r => r.ratio.isSome)).length < 2
  · rw [show calculate_linear_trend rows = (none, 0, 0) from by
      simp [calculate_linear_trend, if_pos h2]] at heq
    simp at heq
  · have h2' := not_lt.mp h2
    rw [trend_eq_fit rows h2'] at heq
    obtain ⟨htds, hm, hc⟩ : some (rows.map (fun r => (r.ts - trendT0 rows) / 86400)) = some tds
        ∧ fitSlope (validPts rows) = m ∧ fitIntercept (validPts rows) = c := by
      simpa [Prod.ext_iff] using heq
    obtain rfl : tds = rows.map (fun r => (r.ts - trendT0 rows) / 86400) :=
      (Option.some.inj htds).symm
    rcases hr : rows.getLast? with _ | r
    · exact absurd (List.getLast?_eq_none_iff.mp hr) hne
    · have hlast : (((rows.map (fun r => (r.ts - trendT0 rows) / 86400)).getLast?).getD 0)
          = elapsedLastDays rows := by
        rw [getLast?_map, hr]
        simp [elapsedLastDays, hr]
      refine ⟨?_, by decide⟩
      simp only [display_projections, hlast]

/-- Concrete witness for C4 at a two-row table whose fit is y = 2 t + 1. -/
def exRowsC4 : List RatioRow := [⟨0, 1, 1, some 1⟩, ⟨86400, 3, 1, some 3⟩]

theorem C4_projection_formula_witness :
    display_projections [0, 1] 2 1
      = projection_days.map (fun p => (p.1, 2 * (elapsedLastDays exRowsC4 + p.2) + 1))
    ∧ projection_days.map Prod.snd = [1, 7, 30, 90, 365] :=
  C4_projection_formula exRowsC4 (by decide) [0, 1] 2 1
    (by norm_num [exRowsC4, calculate_linear_trend, polyfit1])

/-! ## Division guard of the two ratio tables (claim C1)

The app.py table marks the ratio missing (NaN) when the Hyperliquid total is
not positive; the streamlit_app.py table instead stores the defined value
0.0 in that case, so there the ratio cell is not a missing value.
-/

lemma ratioRows_ratio (df : List Record) (cols : List (Platform × Asset))
    (mk : ℚ → ℚ → Option ℚ) (r : RatioRow) (h : r ∈ ratioRows df cols mk) :
    r.ratio = mk r.lSum r.hSum := by
  obtain ⟨it, _, rfl⟩ := List.mem_map.mp h
  rfl

/-- Amended claim C1: in both dashboards a positive denominator gives the
quotient and a zero denominator never raises and never yields an infinite
value; but only app.py yields a missing value there, while streamlit_app.py
yields the defined sentinel 0.0. -/
theorem C1_division_guard (df : List Record) :
    (∀ r ∈ App.calculate_ratio df,
      (r.hSum = 0 → r.ratio = none)
      ∧ (0 < r.hSum → r.ratio = some (r.lSum / r.hSum)))
    ∧ (∀ r ∈ SApp.calculate_ratio df,
      (r.hSum = 0 → r.ratio = some 0)
      ∧ (0 < r.hSum → r.ratio = some (r.lSum / r.hSum))) := by
  constructor
  · intro r hr
    have hre := ratioRows_ratio _ _ _ r hr
    constructor
    · intro h0
      rw [hre, h0]
      norm_num
    · intro hpos
      rw [hre, if_pos hpos]
  · intro r hr
    have hre := ratioRows_ratio _ _ _ r hr
    constructor
    · intro h0
      rw [hre, h0]
      norm_num
    · intro hpos
      rw [hre, if_pos hpos]

/-- A series whose single cycle has a Lighter reading of 5 and a failed
(zero) Hyperliquid reading, so the denominator venue total is zero. -/
def exDfC1 : List Record :=
  [⟨0, Platform.Lighter, Asset.BTC, 5⟩, ⟨0, Platform.Hyperliquid, Asset.BTC, 0⟩]

/-- Counterexample to C1 as stated: in the streamlit_app.py table the row
with denominator total zero carries the defined ratio value 0.0, not a
missing value. -/
theorem C1_counterexample :
    ¬ (∀ r ∈ SApp.calculate_ratio exDfC1, r.hSum = 0 → r.ratio = none) := by
  have hcomp : SApp.calculate_ratio exDfC1 = [⟨0, 5, 0, some 0⟩] := by
    simp +decide [SApp.calculate_ratio, ratioRows, timestampsOf, venueSumAt, columnsS,
      ffillColumn, pivotColumn, cellMean, zeroToNA, ffillFrom, exDfC1,
      List.insertionSort, List.orderedInsert, List.dedup, List.pwFilter, List.filter]
  intro hall
  have h := hall ⟨0, 5, 0, some 0⟩ (by rw [hcomp]; exact List.mem_singleton.mpr rfl) rfl
  exact Option.noConfusion h

/-- A single cycle with both venues read successfully. -/
def exDfC1b : List Record :=
  [⟨0, Platform.Lighter, Asset.BTC, 5⟩, ⟨0, Platform.Hyperliquid, Asset.BTC, 2⟩]

/-- The app.py ratio row derived from exDfC1b. -/
def rExC1 : RatioRow := ⟨0, 5, 2, some (5 / 2)⟩

theorem C1_division_guard_witness : rExC1.ratio = some (rExC1.lSum / rExC1.hSum) := by
  have hcomp : App.calculate_ratio exDfC1b = [rExC1] := by
    simp +decide [App.calculate_ratio, ratioRows, timestampsOf, venueSumAt, columnsApp,
      platformsOf, assetsOf, ffillColumn, pivotColumn, cellMean, zeroToNA, ffillFrom,
      exDfC1b, rExC1, List.insertionSort, List.orderedInsert, List.dedup, List.pwFilter,
      List.filter]
  exact ((C1_division_guard exDfC1b).1 rExC1
    (by rw [hcomp]; exact List.mem_singleton.mpr rfl)).2 (by norm_num [rExC1])

/-! ## Error containment at the adapter boundary (claim C5) -/

/-- Claim C5: the adapters are total functions of the (possibly failing)
transport outcome, and every failure — a network or page error, an error
raised while decoding the Hyperliquid or Lighter payload, or a regex miss on
the scraped text — is converted inside the adapter to the 0.0 failed
result, never propagated. -/
theorem C5_error_containment :
    (∀ (p : Platform) (e : String), scrape_market p (Except.error e) = 0)
    ∧ (∀ e : String, fetch_hyperliquid_oi (Except.error e) = hlFailed)
    ∧ (∀ (data : JValue) (e : String), fetchHLCompute data = Except.error e →
        fetch_hyperliquid_oi (Except.ok data) = hlFailed)
    ∧ (∀ e : String, fetch_lighter_oi (Except.error e) = lighterFailed)
    ∧ (∀ (data : JValue) (e : String), lighterLoop data lighterPairs = Except.error e →
        fetch_lighter_oi (Except.ok data) = lighterFailed)
    ∧ (∀ text : String, hlSearch text = none →
        scrape_market Platform.Hyperliquid (Except.ok text) = 0) := by
  refine ⟨fun p e => rfl, fun e => rfl, ?_, fun e => rfl, ?_, ?_⟩
  · intro data e h
    simp [fetch_hyperliquid_oi, h]
  · intro data e h
    simp [fetch_lighter_oi, h]
  · intro text h
    simp [scrape_market, format_oi_value, h]

/-- A payload whose first asset context carries a non-numeric openInterest
string, so float() raises inside the try block. -/
def badHLPayload : JValue :=
  JValue.arr [JValue.null, JValue.arr [JValue.obj [("openInterest", JValue.str "abc")]]]

theorem C5_error_containment_witness :
    fetch_hyperliquid_oi (Except.ok badHLPayload) = hlFailed :=
  C5_error_containment.2.2.1 badHLPayload "ValueError" (by rfl)

/-! ## Cycle batches: one record per configured pair, one timestamp (C6) -/

lemma hlLoop_fst (ctxs : List JValue) (ps : List (String × Nat)) :
    ∀ r, hlLoop ctxs ps = Except.ok r → r.map Prod.fst = ps.map Prod.fst := by
  induction ps with
  | nil =>
    intro r h
    obtain rfl := (Except.ok.inj h).symm
    rfl
  | cons p rest ih =>
    intro r h
    simp only [hlLoop] at h
    cases h1 : hlPairValue ctxs p.2 with
    | error e => rw [h1] at h; exact Except.noConfusion h
    | ok v =>
      rw [h1] at h
      cases h2 : hlLoop ctxs rest with
      | error e => rw [h2] at h; exact Except.noConfusion h
      | ok tl =>
        rw [h2] at h
        obtain rfl := (Except.ok.inj h).symm
        simp [ih tl h2]

lemma lighterLoop_fst (data : JValue) (ps : List String) :
    ∀ r, lighterLoop data ps = Except.ok r → r.map Prod.fst = ps := by
  induction ps with
  | nil =>
    intro r h
    obtain rfl := (Except.ok.inj h).symm
    rfl
  | cons p rest ih =>
    intro r h
    simp only [lighterLoop] at h
    cases h1 : lighterPairValue data p with
    | error e => rw [h1] at h; exact Except.noConfusion h
    | ok v =>
      rw [h1] at h
      cases h2 : lighterLoop data rest with
      | error e => rw [h2] at h; exact Except.noConfusion h
      | ok tl =>
        rw [h2] at h
        obtain rfl := (Except.ok.inj h).symm
        simp [ih tl h2]

lemma fetchHL_fst (resp : Except String JValue) :
    (fetch_hyperliquid_oi resp).map Prod.fst = ["BTC", "ETH"] := by
  cases resp with
  | error e => rfl
  | ok data =>
    simp only [fetch_hyperliquid_oi]
    cases h : fetchHLCompute data with
    | error e => rfl
    | ok results =>
      simp only [fetchHLCompute] at h
      cases h0 : hlAssetCtxs data with
      | error e => rw [h0] at h; exact Except.noConfusion h
      | ok ctxs =>
        rw [h0] at h
        rw [hlLoop_fst ctxs hlPairs results h]
        rfl

lemma fetchL_fst (resp : Except String JValue) :
    (fetch_lighter_oi resp).map Prod.fst = ["BTC", "ETH"] := by
  cases resp with
  | error e => rfl
  | ok data =>
    simp only [fetch_lighter_oi]
    cases h : lighterLoop data lighterPairs with
    | error e => rfl
    | ok results => rw [lighterLoop_fst data lighterPairs results h]; rfl

lemma pair_shape (l : List (String × ℚ)) (h : l.map Prod.fst = ["BTC", "ETH"]) :
    ∃ a b, l = [("BTC", a), ("ETH", b)] := by
  match l with
  | [] => simp at h
  | [x] => simp at h
  | x :: y :: z :: w => simp at h
  | [x, y] =>
    simp at h
    exact ⟨x.2, y.2, by rw [← h.1, ← h.2]⟩

/-- Claim C6: in both collector variants, each cycle's batch holds exactly
one record per configured (venue, asset) pair — the projected pair list
equals the configuration, which has no duplicates — and every record in the
batch carries the single timestamp captured at cycle start. -/
theorem C6_cycle_batch :
    (∀ (ts : String) (scrape : Platform → String → ℚ),
      (cycle_records_dom ts scrape).length = 4
      ∧ (cycle_records_dom ts scrape).map (fun r => (r.platform, r.pair)) = platform_pairs
      ∧ platform_pairs.Nodup
      ∧ ∀ r ∈ cycle_records_dom ts scrape, r.ts = ts)
    ∧ (∀ (ts : String) (respHL respL : Except String JValue),
      (cycle_records_api ts respHL respL).length = 4
      ∧ (cycle_records_api ts respHL respL).map (fun r => (r.platform, r.pair))
          = [(Platform.Hyperliquid, "BTC"), (Platform.Hyperliquid, "ETH"),
             (Platform.Lighter, "BTC"), (Platform.Lighter, "ETH")]
      ∧ ([(Platform.Hyperliquid, "BTC"), (Platform.Hyperliquid, "ETH"),
          (Platform.Lighter, "BTC"), (Platform.Lighter, "ETH")]
            : List (Platform × String)).Nodup
      ∧ ∀ r ∈ cycle_records_api ts respHL respL, r.ts = ts) := by
  constructor
  · intro ts scrape
    refine ⟨rfl, rfl, by decide, ?_⟩
    intro r hr
    simp [cycle_records_dom, platform_pairs] at hr
    rcases hr with rfl | rfl | rfl | rfl <;> rfl
  · intro ts respHL respL
    obtain ⟨a, b, hH⟩ := pair_shape _ (fetchHL_fst respHL)
    obtain ⟨c2, d2, hL⟩ := pair_shape _ (fetchL_fst respL)
    refine ⟨?_, ?_, by decide, ?_⟩
    · simp [cycle_records_api, hH, hL]
    · simp [cycle_records_api, hH, hL]
    · intro r hr
      simp [cycle_records_api, hH, hL] at hr
      rcases hr with rfl | rfl | rfl | rfl <;> rfl

theorem C6_cycle_batch_witness :
    (cycle_records_dom "2025-01-01 00:00:00" (fun _ _ => 42)).length = 4
    ∧ ∀ r ∈ cycle_records_api "2025-01-01 00:00:00" (Except.error "timeout")
        (Except.error "timeout"), r.ts = "2025-01-01 00:00:00" :=
  ⟨(C6_cycle_batch.1 "2025-01-01 00:00:00" (fun _ _ => 42)).1,
   (C6_cycle_batch.2 "2025-01-01 00:00:00" (Except.error "timeout")
      (Except.error "timeout")).2.2.2⟩

/-! ## Defaulted fields in the Hyperliquid API adapter (claim C9) -/

/-- Claim C9: when the positional index is present, an absent markPx key
defaults to the string one, so the adapter returns the raw openInterest
quantity divided by one million rather than a Failed result; an absent
openInterest key defaults to the string zero, yielding the 0.0 sentinel
without any error being raised. -/
theorem C9_markPx_default :
    (∀ (fs : List (String × JValue)) (q : ℚ),
      fs.lookup "markPx" = none →
      pyFloat ((fs.lookup "openInterest").getD (JValue.str "0")) = Except.ok q →
      hlPairValue [JValue.obj fs] 0 = Except.ok (q / 1000000))
    ∧ (∀ fs : List (String × JValue),
      fs.lookup "openInterest" = none → fs.lookup "markPx" = none →
      hlPairValue [JValue.obj fs] 0 = Except.ok 0) := by
  have h1 : pyFloat (JValue.str "1") = Except.ok 1 := by rfl
  have h0 : pyFloat (JValue.str "0") = Except.ok 0 := by rfl
  constructor
  · intro fs q hm hoi
    simp [hlPairValue, hoi, hm, h1]
  · intro fs hoi hm
    simp [hlPairValue, hoi, hm, h1, h0]

/-- A context entry with an openInterest reading but no markPx key. -/
def exFsC9 : List (String × JValue) := [("openInterest", JValue.str "123000000")]

theorem C9_markPx_default_witness :
    hlPairValue [JValue.obj exFsC9] 0 = Except.ok ((123000000 : ℚ) / 1000000) :=
  C9_markPx_default.1 exFsC9 123000000 (by rfl)
    (by have h := (by decide : parseFloat "123000000" = some 123000000)
        simp [exFsC9, pyFloat, List.lookup, h])

/-! ## Character classes of the regex match and sign of parsed values -/

lemma take_of_takeWhile (p : Char → Bool) :
    ∀ (cs : List Char) (k : Nat), k ≤ (cs.takeWhile p).length →
      cs.take k = (cs.takeWhile p).take k := by
  intro cs
  induction cs with
  | nil => simp
  | cons x xs ih =>
    intro k hk
    by_cases hp : p x
    · rw [List.takeWhile_cons_of_pos hp] at hk ⊢
      cases k with
      | zero => simp
      | succ j =>
        simp only [List.take_succ_cons]
        rw [ih j (by simpa using hk)]
    · rw [List.takeWhile_cons_of_neg hp] at hk
      simp at hk
      subst hk
      simp

lemma digitRun_chars (cs ds : List Char) (h : digitRun cs = some ds) :
    ∀ c ∈ ds, c.isDigit = true := by
  simp only [digitRun] at h
  by_cases he : (cs.takeWhile Char.isDigit).isEmpty
  · rw [if_pos he] at h
    exact absurd h (by simp)
  · rw [if_neg he] at h
    obtain rfl := (Option.some.inj h).symm
    intro c hc
    exact List.mem_takeWhile_imp hc

lemma groupTry_chars (cs : List Char) (k : Nat) (hk : k ≤ (cs.takeWhile digComma).length)
    (g : List Char) (h : groupTry cs k = some g) :
    ∀ c ∈ g, digComma c = true ∨ c = '.' := by
  simp only [groupTry] at h
  by_cases hk0 : k = 0
  · rw [if_pos hk0] at h
    exact absurd h (by simp)
  · rw [if_neg hk0] at h
    have hpre : ∀ c ∈ cs.take k, digComma c = true := by
      intro c hc
      rw [take_of_takeWhile digComma cs k hk] at hc
      exact List.mem_takeWhile_imp ((List.take_sublist _ _).subset hc)
    split at h
    · obtain ⟨ds, hds, rfl⟩ := Option.map_eq_some'.mp h
      intro c hc
      rcases List.mem_append.mp hc with hcp | hcd
      · exact Or.inl (hpre c hcp)
      · rcases List.mem_cons.mp hcd with rfl | hcds
        · exact Or.inr rfl
        · exact Or.inl (by simp [digComma, digitRun_chars _ _ hds c hcds])
    · obtain ⟨ds, hds, rfl⟩ := Option.map_eq_some'.mp h
      intro c hc
      rcases List.mem_append.mp hc with hcp | hcd
      · exact Or.inl (hpre c hcp)
      · exact Or.inl (by simp [digComma, digitRun_chars _ _ hds c hcd])

lemma groupLoop_chars (cs : List Char) :
    ∀ (k : Nat), k ≤ (cs.takeWhile digComma).length →
      ∀ g, groupLoop cs k = some g → ∀ c ∈ g, digComma c = true ∨ c = '.' := by
  intro k
  induction k with
  | zero =>
    intro _ g h
    exact absurd h (by simp [groupLoop])
  | succ j ih =>
    intro hk g h
    simp only [groupLoop] at h
    cases h1 : groupTry cs (j + 1) with
    | some g0 =>
      rw [h1] at h
      obtain rfl := (Option.some.inj h).symm
      exact groupTry_chars cs (j + 1) hk g h1
    | none =>
      rw [h1] at h
      exact ih (Nat.le_of_succ_le hk) g h

lemma matchDigitsTail_chars (cs g : List Char) (h : matchDigitsTail cs = some g) :
    ∀ c ∈ g, digComma c = true ∨ c = '.' :=
  groupLoop_chars cs _ (le_refl _) g h

lemma hlTryAt_chars (cs g : List Char) (h : hlTryAt cs = some g) :
    ∀ c ∈ g, c = '$' ∨ digComma c = true ∨ c = '.' := by
  simp only [hlTryAt] at h
  by_cases hs : startsWith oiLabel cs
  · rw [if_pos hs] at h
    split at h
    · obtain ⟨m, hm, rfl⟩ := Option.map_eq_some'.mp h
      intro c hc
      rcases List.mem_cons.mp hc with rfl | hcm
      · exact Or.inl rfl
      · exact Or.inr (matchDigitsTail_chars _ _ hm c hcm)
    · exact absurd h (by simp)
  · rw [if_neg hs] at h
    exact absurd h (by simp)

lemma hlSearchAux_chars :
    ∀ (cs : List Char) (g : List Char), hlSearchAux cs = some g →
      ∀ c ∈ g, c = '$' ∨ digComma c = true ∨ c = '.' := by
  intro cs
  induction cs with
  | nil =>
    intro g h
    exact absurd h (by simp [hlSearchAux])
  | cons c0 rest ih =>
    intro g h
    simp only [hlSearchAux] at h
    cases h1 : hlTryAt (c0 :: rest) with
    | some g0 =>
      rw [h1] at h
      obtain rfl := (Option.some.inj h).symm
      exact hlTryAt_chars _ g h1
    | none =>
      rw [h1] at h
      exact ih g h

lemma hlSearch_chars (text g : String) (h : hlSearch text = some g) :
    ∀ c ∈ g.toList, c = '$' ∨ digComma c = true ∨ c = '.' := by
  simp only [hlSearch] at h
  obtain ⟨l, hl, rfl⟩ := Option.map_eq_some'.mp h
  intro c hc
  exact hlSearchAux_chars _ l hl c hc

lemma mem_removeChar (s : String) (x c : Char) (h : c ∈ (removeChar s x).toList) :
    c ∈ s.toList ∧ c ≠ x := by
  have h' : c ∈ s.toList.filter (fun y => y ≠ x) := h
  have := List.mem_filter.mp h'
  simpa using this

lemma mem_pyStrip (s : String) (c : Char) (h : c ∈ (pyStrip s).toList) : c ∈ s.toList := by
  have h1 : c ∈ ((s.toList.dropWhile Char.isWhitespace).reverse.dropWhile
      Char.isWhitespace).reverse := h
  have h2 := (List.dropWhile_suffix _).sublist.subset (List.mem_reverse.mp h1)
  exact (List.dropWhile_suffix _).sublist.subset (List.mem_reverse.mp h2)

lemma parseMantissa_nonneg (cs : List Char) (q : ℚ) (h : parseMantissa cs = some q) :
    0 ≤ q := by
  simp only [parseMantissa] at h
  split at h
  · split at h
    · exact absurd h (by simp)
    · obtain rfl := (Option.some.inj h).symm
      positivity
  · split at h
    · obtain rfl := (Option.some.inj h).symm
      positivity
    · exact absurd h (by simp)
  · exact absurd h (by simp)

lemma parseUnsigned_nonneg (cs : List Char) (q : ℚ) (h : parseUnsigned cs = some q) :
    0 ≤ q := by
  simp only [parseUnsigned] at h
  split at h
  · exact parseMantissa_nonneg _ q h
  · split at h
    · rename_i q0 e hm he
      obtain rfl := (Option.some.inj h).symm
      have h0 := parseMantissa_nonneg _ q0 hm
      have h1 : (0 : ℚ) ≤ (10 : ℚ) ^ e := zpow_nonneg (by norm_num) e
      exact mul_nonneg h0 h1
    · exact absurd h (by simp)

lemma parseFloat_nonneg (s : String) (q : ℚ) (h : parseFloat s = some q)
    (hm : '-' ∉ s.toList) : 0 ≤ q := by
  simp only [parseFloat] at h
  split at h
  · rename_i cs heq
    exact absurd (by rw [heq]; exact List.mem_cons_self _ _) hm
  · rename_i cs heq
    exact parseUnsigned_nonneg _ q h
  · exact parseUnsigned_nonneg _ q h

/-! ## Unstructured extraction behaviour (claim C7) -/

/-- Claim C7: in the DOM extraction path, a percentage-looking candidate is
rejected with the 0.0 sentinel (on the Lighter path directly; on the
Hyperliquid path no matched candidate can even contain a percent sign), the
dollar and comma currency characters are removed before the number is
parsed, and any parse failure — or a regex miss — yields the 0.0 sentinel. -/
theorem C7_extraction_rules :
    (∀ text : String, '%' ∈ text.toList → (format_oi_value text Platform.Lighter).1 = 0)
    ∧ (∀ text : String, parseFloat (stripCurrency (pyStrip text)) = none →
        (format_oi_value text Platform.Lighter).1 = 0)
    ∧ (∀ (text : String) (q : ℚ), '%' ∉ text.toList →
        parseFloat (stripCurrency (pyStrip text)) = some q →
        (format_oi_value text Platform.Lighter).1 = q / 1000000)
    ∧ (∀ text g : String, hlSearch text = some g → '%' ∉ g.toList)
    ∧ (∀ text g : String, hlSearch text = some g →
        parseFloat (stripCurrency (pyStrip g)) = none →
        (format_oi_value text Platform.Hyperliquid).1 = 0)
    ∧ (∀ (text g : String) (q : ℚ), hlSearch text = some g →
        parseFloat (stripCurrency (pyStrip g)) = some q →
        (format_oi_value text Platform.Hyperliquid).1 = q / 1000000)
    ∧ (∀ text : String, hlSearch text = none →
        (format_oi_value text Platform.Hyperliquid).1 = 0) := by
  refine ⟨?_, ?_, ?_, ?_, ?_, ?_, ?_⟩
  · intro text hpc
    have hpc2 : '%' ∈ text.data := hpc
    simp [format_oi_value, hpc2]
  · intro text hp
    by_cases hpc : '%' ∈ text.data
    · simp [format_oi_value, hpc]
    · simp [format_oi_value, hpc, hp]
  · intro text q hpc hp
    have hpc2 : '%' ∉ text.data := hpc
    simp [format_oi_value, hpc2, hp]
  · intro text g hg hpc
    rcases hlSearch_chars text g hg '%' hpc with h | h | h
    · exact absurd h (by decide)
    · exact absurd h (by decide)
    · exact absurd h (by decide)
  · intro text g hg hp
    simp [format_oi_value, hg, hp]
  · intro text g q hg hp
    simp [format_oi_value, hg, hp]
  · intro text hg
    simp [format_oi_value, hg]

theorem C7_extraction_rules_witness :
    (format_oi_value "12%" Platform.Lighter).1 = 0 :=
  C7_extraction_rules.1 "12%" (by decide)

/-! ## Sign of adapter outputs (claim C8, corrected) -/

/-- Counterexample to C8 as stated: the Lighter text path parses a negative
scraped string and persists a negative OI value; universal non-negativity
over all inputs fails. -/
theorem C8_counterexample : (format_oi_value "-5" Platform.Lighter).1 < 0 := by
  have h1 : parseFloat (stripCurrency (pyStrip "-5")) = some (-5) := by decide
  simp +decide [format_oi_value, h1]
  norm_num

/-- Amended claim C8: the Hyperliquid DOM path is non-negative for every
input text, because the regex candidate contains no minus sign; the Lighter
DOM path is non-negative whenever the number parsed from the cleaned text is
non-negative; and every nonzero Hyperliquid API pair value is the product of
the two parsed payload numbers over one million, hence non-negative whenever
those parsed numbers are non-negative. -/
theorem C8_nonneg_amended :
    (∀ text : String, 0 ≤ (format_oi_value text Platform.Hyperliquid).1)
    ∧ (∀ text : String,
        (∀ q : ℚ, parseFloat (stripCurrency (pyStrip text)) = some q → 0 ≤ q) →
        0 ≤ (format_oi_value text Platform.Lighter).1)
    ∧ (∀ (ctxs : List JValue) (idx : Nat) (q : ℚ),
        hlPairValue ctxs idx = Except.ok q → q ≠ 0 →
        ∃ (h : idx < ctxs.length) (fs : List (String × JValue)) (a b : ℚ),
          ctxs.get ⟨idx, h⟩ = JValue.obj fs
          ∧ pyFloat ((fs.lookup "openInterest").getD (JValue.str "0")) = Except.ok a
          ∧ pyFloat ((fs.lookup "markPx").getD (JValue.str "1")) = Except.ok b
          ∧ q = a * b / 1000000
          ∧ (0 ≤ a → 0 ≤ b → 0 ≤ q)) := by
  refine ⟨?_, ?_, ?_⟩
  · intro text
    cases hg : hlSearch text with
    | none => simp [format_oi_value, hg]
    | some g =>
      cases hp : parseFloat (stripCurrency (pyStrip g)) with
      | none => simp [format_oi_value, hg, hp]
      | some q =>
        have hq : 0 ≤ q := by
          refine parseFloat_nonneg _ q hp ?_
          intro hmem
          obtain ⟨h1, _⟩ := mem_removeChar _ _ _ hmem
          obtain ⟨h2, _⟩ := mem_removeChar _ _ _ h1
          have h3 := mem_pyStrip _ _ h2
          rcases hlSearch_chars text g hg '-' h3 with h | h | h
          · exact absurd h (by decide)
          · exact absurd h (by decide)
          · exact absurd h (by decide)
        have : (format_oi_value text Platform.Hyperliquid).1 = q / 1000000 := by
          simp [format_oi_value, hg, hp]
        rw [this]
        positivity
  · intro text hq
    by_cases hpc : '%' ∈ text.data
    · simp [format_oi_value, hpc]
    · cases hp : parseFloat (stripCurrency (pyStrip text)) with
      | none => simp [format_oi_value, hpc, hp]
      | some q =>
        have h0 := hq q hp
        have : (format_oi_value text Platform.Lighter).1 = q / 1000000 := by
          simp [format_oi_value, hpc, hp]
        rw [this]
        positivity
  · intro ctxs idx q h hq0
    simp only [hlPairValue] at h
    by_cases hlt : idx < ctxs.length
    · rw [dif_pos hlt] at h
      split at h
      · split at h
        · exact Except.noConfusion h
        · split at h
          · exact Except.noConfusion h
          · rename_i m fs hget x1 a hoi x2 b hmk
            obtain rfl := (Except.ok.inj h).symm
            exact ⟨hlt, fs, a, b, hget, hoi, hmk, rfl, fun ha hb => by positivity⟩
      · exact Except.noConfusion h
    · rw [dif_neg hlt] at h
      exact absurd (Except.ok.inj h).symm hq0

theorem C8_nonneg_amended_witness :
    0 ≤ (format_oi_value "$3,000,000" Platform.Lighter).1 :=
  C8_nonneg_amended.2.1 "$3,000,000" (fun q hq => by
    have hp : parseFloat (stripCurrency (pyStrip "$3,000,000")) = some 3000000 := by decide
    rw [hp] at hq
    obtain rfl := Option.some.inj hq
    norm_num)

end OIMonitor
